import Mathlib

/-!
Verification of the custos buffer/cache layer.

Two parts of the repository are embedded:

* the thread-local CPU cache of `src/libs/cpu/cpu_cache.rs` together with the
  device drop / cache-dealloc logic of `src/libs/cpu/cpu_device.rs`
  (`Node`, `CPUCache::get`, `CPUCache::add_node`, `Dealloc::dealloc_cache`,
  `Drop for CPU`);

* the allocation surface of `src/devices/cpu/cpu_device.rs` and
  `src/devices/cuda/cuda_device.rs` (`Alloc::alloc`, `Alloc::with_slice`,
  `Alloc::alloc_with_vec`, `RawConv::construct`/`destruct`, `ClearBuf::clear`,
  `CloneBuf::clone_buf`, `Read::read`).

Host memory is modelled as a heap of blocks addressed by natural numbers; the
element type is instantiated at `Int` (a numeric type where `Default::default()`
is `0` and zero-initialised bytes read back as `0`).  `Box`/`std::alloc::alloc`
returning pairwise distinct addresses is modelled by a monotone fresh-address
counter.  Assertion failures and panics are modelled as `Except.error`.
-/

namespace Custos

/-! ## Part A: the thread-local CPU cache (`src/libs/cpu/cpu_cache.rs`) -/

/-- Matrix dimensions `(usize, usize)`. -/
abbrev Dims := Nat × Nat

/-- `Node { idx: usize, out_dims: (usize, usize) }` — the cache key
(`src/libs/cpu/cpu_cache.rs:8-12`).  Derived equality is exact equality of
both fields, as with the Rust `#[derive(PartialEq, Eq, Hash)]`. -/
structure Node where
  idx : Nat
  out_dims : Dims
deriving DecidableEq, Repr

/-- The erased cache value `RawInfo = (CpuPtr, (usize, usize))`: the stored raw
pointer (an address in our model) and the stored dimensions. -/
abbrev RawInfo := Nat × Dims

/-- First-match association-list lookup, modelling `HashMap::get`. -/
def lookupNode : List (Node × RawInfo) → Node → Option RawInfo
  | [], _ => none
  | (k, v) :: rest, n => if k = n then some v else lookupNode rest n

/-- Remove every binding of a key, modelling `HashMap::remove`. -/
def eraseNode : List (Node × RawInfo) → Node → List (Node × RawInfo)
  | [], _ => []
  | (k, v) :: rest, n => if k = n then eraseNode rest n else (k, v) :: eraseNode rest n

/-- `HashMap::insert`: replace any existing binding of the key.  The hash map
has no observable order, so the new binding is placed at the front. -/
def insertNode (nodes : List (Node × RawInfo)) (n : Node) (v : RawInfo) :
    List (Node × RawInfo) :=
  (n, v) :: eraseNode nodes n

/-- The state touched by the cache code: the thread-local call-site counter
`COUNT`, the thread-local `CPU_CACHE` table, the abstract host allocator
(`next` = next fresh address), and an instrumentation counter `allocs`
recording how many host allocations have been performed (used to observe
"no allocation occurs on a hit"). -/
structure CPUCacheState where
  count : Nat
  nodes : List (Node × RawInfo)
  next : Nat
  allocs : Nat
deriving DecidableEq, Repr

/-- `Node::new(out_dims)` (`src/libs/cpu/cpu_cache.rs:14-26`): read the
thread-local counter as the call-site index, then increment it.  Returns the
node and the new counter value. -/
def Node.new (count : Nat) (out_dims : Dims) : Node × Nat :=
  (⟨count, out_dims⟩, count + 1)

/-- `Matrix::new(CPU, dims)` as called from `add_node`: one fresh host
allocation of `dims.0 * dims.1` elements; the returned matrix carries the new
pointer and the dimensions. -/
def allocMatrix (s : CPUCacheState) (dims : Dims) : (Nat × Dims) × CPUCacheState :=
  ((s.next, dims), { s with next := s.next + 1, allocs := s.allocs + 1 })

/-- `CPUCache::add_node` (`src/libs/cpu/cpu_cache.rs:46-50`): allocate a new
matrix for the node's dimensions, store `(ptr, dims)` under the node, return
the matrix. -/
def CPUCache.add_node (s : CPUCacheState) (n : Node) : (Nat × Dims) × CPUCacheState :=
  let (out, s') := allocMatrix s n.out_dims
  (out, { s' with nodes := insertNode s'.nodes n (out.1, out.2) })

/-- `CPUCache::get` (`src/libs/cpu/cpu_cache.rs:52-78`): build a node from the
current counter and the requested dimensions (incrementing the counter), look
it up; on a hit return a matrix over the stored pointer and stored dimensions,
on a miss allocate and insert via `add_node`. -/
def CPUCache.get (s : CPUCacheState) (out_dims : Dims) : (Nat × Dims) × CPUCacheState :=
  let (node, count') := Node.new s.count out_dims
  let s1 : CPUCacheState := { s with count := count' }
  match lookupNode s1.nodes node with
  | some info => ((info.1, info.2), s1)
  | none => CPUCache.add_node s1 node

/-- Replay a fixed sequence of cache lookups (one `CPUCache::get` per
requested dimension), collecting the returned matrices. -/
def runSeq (s : CPUCacheState) : List Dims → List (Nat × Dims) × CPUCacheState
  | [] => ([], s)
  | d :: ds =>
    let (m, s') := CPUCache.get s d
    let (ms, s'') := runSeq s' ds
    (m :: ms, s'')

/-- Reset the thread-local call-site counter (`set_count`) to `c`, as done
between replayed passes; nothing else of the state changes. -/
def resetCount (s : CPUCacheState) (c : Nat) : CPUCacheState :=
  { s with count := c }

/-- Every stored pointer was produced by the abstract allocator, hence lies
below the fresh-address watermark. -/
def ptrsBelow (s : CPUCacheState) : Prop :=
  ∀ kv ∈ s.nodes, kv.2.1 < s.next

/-- Stored pointers determine their node: two table entries with the same
backing pointer have the same key. -/
def injPtrs (s : CPUCacheState) : Prop :=
  ∀ kv₁ ∈ s.nodes, ∀ kv₂ ∈ s.nodes, kv₁.2.1 = kv₂.2.1 → kv₁.1 = kv₂.1

/-- The table keys are pairwise distinct (a `HashMap` property). -/
def keysNodup (s : CPUCacheState) : Prop :=
  (s.nodes.map Prod.fst).Nodup

/-- Well-formedness invariant of the cache state. -/
def WF (s : CPUCacheState) : Prop :=
  ptrsBelow s ∧ injPtrs s ∧ keysNodup s

instance (s : CPUCacheState) : Decidable (ptrsBelow s) :=
  inferInstanceAs (Decidable (∀ kv ∈ s.nodes, kv.2.1 < s.next))

instance (s : CPUCacheState) : Decidable (injPtrs s) :=
  inferInstanceAs (Decidable (∀ kv₁ ∈ s.nodes, ∀ kv₂ ∈ s.nodes, kv₁.2.1 = kv₂.2.1 → kv₁.1 = kv₂.1))

instance (s : CPUCacheState) : Decidable (keysNodup s) :=
  inferInstanceAs (Decidable (s.nodes.map Prod.fst).Nodup)

instance (s : CPUCacheState) : Decidable (WF s) :=
  inferInstanceAs (Decidable (ptrsBelow s ∧ injPtrs s ∧ keysNodup s))

/-- The state of a fresh thread: `COUNT = 0`, empty `CPU_CACHE`, no
allocations performed yet. -/
def initState : CPUCacheState :=
  { count := 0, nodes := [], next := 0, allocs := 0 }

/-- `Dealloc::dealloc_cache` for `InternCPU`
(`src/libs/cpu/cpu_device.rs:115-127`): clone the table, then for each cloned
entry free its stored pointer (`Box::from_raw`) and remove the entry's key
from the live table.  Returns the list of freed pointers (in iteration order)
and the resulting state. -/
def deallocCache (s : CPUCacheState) : List Nat × CPUCacheState :=
  let contents := s.nodes
  let (freed, nodes') :=
    contents.foldl
      (fun (acc : List Nat × List (Node × RawInfo)) entry =>
        (acc.1 ++ [entry.2.1], eraseNode acc.2 entry.1))
      ([], s.nodes)
  (freed, { s with nodes := nodes' })

/-- `Drop for CPU` (`src/libs/cpu/cpu_device.rs:175-200`): snapshot the
thread-local cache table; then for every pointer recorded in the device's
`ptrs` list, free it (`Box::from_raw`) and remove from the live table the key
of every snapshot entry whose stored pointer equals the freed pointer.
Returns the list of freed pointers and the resulting cache table. -/
def dropCPU (ptrs : List Nat) (cache : List (Node × RawInfo)) :
    List Nat × List (Node × RawInfo) :=
  let contents := cache
  ptrs.foldl
    (fun (acc : List Nat × List (Node × RawInfo)) ptr =>
      (acc.1 ++ [ptr],
       contents.foldl
         (fun c entry => if entry.2.1 = ptr then eraseNode c entry.1 else c)
         acc.2))
    ([], cache)

/-! ## Part B: host heap and the `devices/` allocation surface -/

/-- A host memory block: its element contents. -/
abbrev Block := List Int

/-- First-match lookup of a block by address. -/
def lookupBlock : List (Nat × Block) → Nat → Option Block
  | [], _ => none
  | (a, b) :: rest, x => if a = x then some b else lookupBlock rest x

/-- Replace the contents of the first block with the given address. -/
def setBlock : List (Nat × Block) → Nat → Block → List (Nat × Block)
  | [], _, _ => []
  | (a, b) :: rest, x, v => if a = x then (x, v) :: rest else (a, b) :: setBlock rest x v

/-- The host heap: a fresh-address counter and the allocated blocks. -/
structure Heap where
  next : Nat
  blocks : List (Nat × Block)
deriving DecidableEq, Repr

/-- A `Buffer` as the numeric layer sees it: backing address and length. -/
structure Buf where
  addr : Nat
  len : Nat
deriving DecidableEq, Repr

/-- `Alloc::alloc` for `CPU` (`src/devices/cpu/cpu_device.rs:84-104`):
`assert!(len > 0, "invalid buffer len: 0")`; the length is raised to `S::LEN`
when the static shape is larger (`shapeLen` is `S::LEN`, `0` for the dynamic
shape `()`); the fresh block is zero-initialised byte by byte, i.e. every
element reads back as `0`. -/
def cpuAlloc (h : Heap) (len shapeLen : Nat) : Except String (Nat × Heap) :=
  if len = 0 then .error "invalid buffer len: 0"
  else
    let len' := if shapeLen > len then shapeLen else len
    .ok (h.next, ⟨h.next + 1, (h.next, List.replicate len' 0) :: h.blocks⟩)

/-- `MainMemory::buf_as_slice` (`src/devices/cpu/cpu_device.rs:145-151`):
the slice view `from_raw_parts(ptr, buf.len)` over the backing block; `none`
models the invalid-pointer assertion. -/
def bufAsSlice (h : Heap) (b : Buf) : Option (List Int) :=
  (lookupBlock h.blocks b.addr).map (fun bs => bs.take b.len)

/-- Write `data` into the first `data.length` elements of the buffer's backing
block (the effect of copying into the slice view). -/
def writeBufMem (h : Heap) (b : Buf) (data : List Int) : Heap :=
  match lookupBlock h.blocks b.addr with
  | some bs => { h with blocks := setBlock h.blocks b.addr (data ++ bs.drop data.length) }
  | none => h

/-- `Read::read` for `CPU` (`src/devices/cpu/cpu_device.rs:185-200`): read the
buffer back through its slice view. -/
def readBuf (h : Heap) (b : Buf) : Option (List Int) :=
  bufAsSlice h b

/-- `Alloc::with_slice` (`src/devices/cpu/cpu_device.rs:106-117`):
`assert!(!data.is_empty(), ...)`; allocate `data.len()` elements (dynamic
shape), then `clone_from_slice(data)` into the new block. -/
def withSlice (h : Heap) (data : List Int) : Except String (Nat × Heap) :=
  if data.isEmpty then .error "invalid buffer len: 0"
  else
    match cpuAlloc h data.length 0 with
    | .ok (p, h1) => .ok (p, writeBufMem h1 ⟨p, data.length⟩ data)
    | .error e => .error e

/-- A Rust `Vec<T>`: its heap-backing address and its elements. -/
structure HVec where
  addr : Nat
  data : List Int
deriving DecidableEq, Repr

/-- `Alloc::alloc_with_vec` (`src/devices/cpu/cpu_device.rs:118-125`):
`assert!(!vec.is_empty(), ...)`; `let ptr = vec.as_mut_ptr()` (the vector's
own backing allocation), then `core::mem::forget(vec)`.  The returned `Bool`
records that the vector handle was consumed by `mem::forget`, i.e. its
destructor will not run.  The heap is untouched: no allocation, no copy. -/
def allocWithVec (h : Heap) (v : HVec) : Except String (Nat × Heap × Bool) :=
  if v.data.isEmpty then .error "invalid buffer len: 0"
  else .ok (v.addr, h, true)

/-- Number of frees the vector's destructor performs: none when the handle was
consumed by `core::mem::forget`. -/
def vecDropFrees (consumed : Bool) : Nat :=
  if consumed then 0 else 1

/-- `ClearBuf::clear` for `CPU` (`src/devices/cpu/cpu_device.rs:202-208`):
overwrite every element of the buffer's slice view with `T::default()`
(`0` for the numeric model type). -/
def cpuClear (h : Heap) (b : Buf) : Heap :=
  writeBufMem h b (List.replicate b.len 0)

/-- `CloneBuf::clone_buf` for `CPU` (`src/devices/cpu/cpu_device.rs:165-171`):
`Buffer::new(self, buf.len)` performs a fresh zeroed allocation of the same
length, then `cloned.clone_from_slice(buf)` copies the source contents
(panicking, i.e. erroring, if the two slice views disagree in length). -/
def cloneBuf (h : Heap) (b : Buf) : Except String (Buf × Heap) :=
  match cpuAlloc h b.len 0 with
  | .ok (p, h1) =>
    match bufAsSlice h1 b with
    | some src =>
      if src.length = b.len then .ok (⟨p, b.len⟩, writeBufMem h1 ⟨p, b.len⟩ src)
      else .error "source slice length does not match destination slice length"
    | none => .error "called as_slice() on an invalid CPU buffer"
  | .error e => .error e

/-- `Device<T>::alloc` for `InternCPU` (`src/libs/cpu/cpu_device.rs:32-38`):
`assert!(len > 0, ...)`; `vec![T::default(); len]` boxed into a raw pointer
(`T::default() = 0` for the numeric model type), with the pointer pushed onto
the device's `ptrs` list. -/
def internCpuAlloc (h : Heap) (devPtrs : List Nat) (len : Nat) :
    Except String (Nat × Heap × List Nat) :=
  if len = 0 then .error "invalid buffer len: 0"
  else .ok (h.next, ⟨h.next + 1, (h.next, List.replicate len 0) :: h.blocks⟩,
            devPtrs ++ [h.next])

/-- Modelled from the spec: `cumalloc` (the CUDA driver allocation wrapper
called by `Alloc for CudaDevice`, `src/devices/cuda/cuda_device.rs:75-94`) is
not among the sources; §4.1 of the spec states that allocation "fails
(panics/returns error) if `len == 0`", so the wrapper returns an error for a
zero-length request and a fresh device pointer otherwise. -/
def cumalloc (next : Nat) (len : Nat) : Except String Nat :=
  if len = 0 then .error "invalid allocation size: 0" else .ok next

/-- `Alloc::alloc` for `CudaDevice` (`src/devices/cuda/cuda_device.rs:76-80`):
`cumalloc::<T>(len).unwrap()` — an error from the driver wrapper aborts the
call (`unwrap` panics). -/
def cudaAlloc (next : Nat) (len : Nat) : Except String Nat :=
  match cumalloc next len with
  | .ok p => .ok p
  | .error e => .error e

/-- `Alloc::with_data` for `CudaDevice`
(`src/devices/cuda/cuda_device.rs:82-86`): `cumalloc::<T>(data.len())`
followed by `cu_write`; a zero-length source already fails in `cumalloc`. -/
def cudaWithData (next : Nat) (data : List Int) : Except String Nat :=
  match cumalloc next data.length with
  | .ok p => .ok p
  | .error e => .error e

/-! ## Part B': the type-erasure bridge (`RawConv for CPU`) -/

/-- `RawCpuBuf`: the erased cache record — canonical (byte) pointer, length,
alignment and size of the element type, and the graph node id. -/
structure RawCpuBuf where
  ptr : Nat
  len : Nat
  align : Nat
  size : Nat
  node : Nat
deriving DecidableEq, Repr

/-- `RawConv::construct` for `CPU` (`src/devices/cpu/cpu_device.rs:61-69`):
records the cast pointer together with `len`, `align_of::<T>()`,
`size_of::<T>()` and the node.  The element type's layout is passed as the
explicit arguments `tsize`, `talign`. -/
def construct (tsize talign : Nat) (ptr len node : Nat) : RawCpuBuf :=
  { ptr := ptr, len := len, align := talign, size := tsize, node := node }

/-- `RawConv::destruct` for `CPU` (`src/devices/cpu/cpu_device.rs:71-78`):
reinterprets the stored pointer as `*mut T` and returns it with the stored
node.  The requested element layout (`tsize`, `talign`) is available to the
function (as `size_of::<T>()`/`align_of::<T>()` in Rust) but the body contains
no assertion and does not inspect it. -/
def destruct (tsize talign : Nat) (ct : RawCpuBuf) : Nat × Nat :=
  (ct.ptr, ct.node)

/-- The behaviour the spec asks for (§4.3: "defensive implementations should
assert `size_of::<T>() == record.size && align_of::<T>() == record.align` and
fail fast on mismatch"): return the typed pointer only when the requested
layout agrees with the recorded one. -/
def destructChecked (tsize talign : Nat) (ct : RawCpuBuf) : Option (Nat × Nat) :=
  if tsize = ct.size ∧ talign = ct.align then some (ct.ptr, ct.node) else none

/-- End-to-end host scenario of §8: build a length-4 buffer from `[1,2,3,4]`,
clone it, clear the clone, read both buffers back. -/
def cloneScene : Option (List Int × List Int) :=
  match withSlice ⟨0, []⟩ [1, 2, 3, 4] with
  | .ok (p, h1) =>
    let b : Buf := ⟨p, 4⟩
    match cloneBuf h1 b with
    | .ok (c, h2) =>
      let h3 := cpuClear h2 c
      match readBuf h3 b, readBuf h3 c with
      | some r1, some r2 => some (r1, r2)
      | _, _ => none
    | .error _ => none
  | .error _ => none

/-! ## Association-list lemmas for the cache table -/

theorem lookupNode_erase (l : List (Node × RawInfo)) (n k : Node) :
    lookupNode (eraseNode l n) k = if k = n then none else lookupNode l k := by
  induction l with
  | nil => simp only [eraseNode, lookupNode]; split <;> rfl
  | cons hd tl ih =>
    obtain ⟨a, v⟩ := hd
    rw [eraseNode]
    by_cases han : a = n
    · rw [if_pos han, ih]
      by_cases hk : k = n
      · rw [if_pos hk, if_pos hk]
      · rw [if_neg hk, if_neg hk, lookupNode,
          if_neg (fun h : a = k => hk (by rw [← h]; exact han))]
    · rw [if_neg han, lookupNode]
      by_cases hak : a = k
      · rw [if_pos hak, lookupNode, if_pos hak,
          if_neg (fun h : k = n => han (by rw [hak, h]))]
      · rw [if_neg hak, ih, lookupNode, if_neg hak]

theorem eraseNode_of_lookup_none (l : List (Node × RawInfo)) (n : Node)
    (h : lookupNode l n = none) : eraseNode l n = l := by
  induction l with
  | nil => rfl
  | cons hd tl ih =>
    obtain ⟨a, v⟩ := hd
    simp only [lookupNode] at h
    by_cases han : a = n
    · simp [han] at h
    · simp only [eraseNode, if_neg han]
      rw [ih (by simpa [han] using h)]

theorem lookupNode_insert_self (l : List (Node × RawInfo)) (n : Node) (v : RawInfo) :
    lookupNode (insertNode l n v) n = some v := by
  simp [insertNode, lookupNode]

theorem lookupNode_insert_ne (l : List (Node × RawInfo)) (n k : Node) (v : RawInfo)
    (h : k ≠ n) : lookupNode (insertNode l n v) k = lookupNode l k := by
  simp only [insertNode, lookupNode]
  rw [if_neg (fun he => h he.symm), lookupNode_erase, if_neg h]

theorem lookupNode_mem (l : List (Node × RawInfo)) (n : Node) (v : RawInfo)
    (h : lookupNode l n = some v) : (n, v) ∈ l := by
  induction l with
  | nil => simp [lookupNode] at h
  | cons hd tl ih =>
    obtain ⟨a, w⟩ := hd
    rw [lookupNode] at h
    by_cases han : a = n
    · subst han
      rw [if_pos rfl, Option.some.injEq] at h
      subst h; exact List.mem_cons_self _ _
    · rw [if_neg han] at h
      exact List.mem_cons_of_mem _ (ih h)

theorem lookupNode_none_iff (l : List (Node × RawInfo)) (n : Node) :
    lookupNode l n = none ↔ n ∉ l.map Prod.fst := by
  induction l with
  | nil => simp [lookupNode]
  | cons hd tl ih =>
    obtain ⟨a, w⟩ := hd
    rw [lookupNode]
    by_cases han : a = n
    · subst han; simp
    · rw [if_neg han, ih]
      simp only [List.map_cons, List.mem_cons]
      constructor
      · intro h hc
        rcases hc with hc | hc
        · exact han hc.symm
        · exact h hc
      · intro h hc
        exact h (Or.inr hc)

theorem mem_eraseNode (l : List (Node × RawInfo)) (n : Node) (kv : Node × RawInfo) :
    kv ∈ eraseNode l n ↔ kv ∈ l ∧ kv.1 ≠ n := by
  induction l with
  | nil => simp [eraseNode]
  | cons hd tl ih =>
    obtain ⟨a, v⟩ := hd
    rw [eraseNode]
    by_cases han : a = n
    · rw [if_pos han, ih]
      constructor
      · rintro ⟨h1, h2⟩
        exact ⟨List.mem_cons_of_mem _ h1, h2⟩
      · rintro ⟨h1, h2⟩
        rcases List.mem_cons.mp h1 with h | h
        · exact absurd (show kv.1 = n by rw [h, ← han]) h2
        · exact ⟨h, h2⟩
    · rw [if_neg han, List.mem_cons, ih, List.mem_cons]
      constructor
      · rintro (h | ⟨h1, h2⟩)
        · refine ⟨Or.inl h, ?_⟩
          rw [h]; exact han
        · exact ⟨Or.inr h1, h2⟩
      · rintro ⟨h1 | h1, h2⟩
        · exact Or.inl h1
        · exact Or.inr ⟨h1, h2⟩

/-! ## Lemmas about a single `CPUCache::get` -/

theorem get_hit (s : CPUCacheState) (d : Dims) (info : RawInfo)
    (h : lookupNode s.nodes ⟨s.count, d⟩ = some info) :
    CPUCache.get s d = (info, { s with count := s.count + 1 }) := by
  simp [CPUCache.get, Node.new, h]

theorem get_miss (s : CPUCacheState) (d : Dims)
    (h : lookupNode s.nodes ⟨s.count, d⟩ = none) :
    CPUCache.get s d =
      ((s.next, d),
       { count := s.count + 1,
         nodes := insertNode s.nodes ⟨s.count, d⟩ (s.next, d),
         next := s.next + 1, allocs := s.allocs + 1 }) := by
  simp [CPUCache.get, Node.new, h, CPUCache.add_node, allocMatrix]

theorem get_count (s : CPUCacheState) (d : Dims) :
    (CPUCache.get s d).2.count = s.count + 1 := by
  cases h : lookupNode s.nodes ⟨s.count, d⟩ with
  | some info => rw [get_hit s d info h]
  | none => rw [get_miss s d h]

theorem get_post (s : CPUCacheState) (d : Dims) :
    lookupNode (CPUCache.get s d).2.nodes ⟨s.count, d⟩ = some (CPUCache.get s d).1 := by
  cases h : lookupNode s.nodes ⟨s.count, d⟩ with
  | some info => rw [get_hit s d info h]; exact h
  | none => rw [get_miss s d h]; exact lookupNode_insert_self _ _ _

theorem get_preserve (s : CPUCacheState) (d : Dims) (n : Node) (hn : n.idx < s.count) :
    lookupNode (CPUCache.get s d).2.nodes n = lookupNode s.nodes n := by
  cases h : lookupNode s.nodes ⟨s.count, d⟩ with
  | some info => rw [get_hit s d info h]
  | none =>
    rw [get_miss s d h]
    exact lookupNode_insert_ne _ _ _ _ (fun he => by simp [he] at hn)

/-! ## Lemmas about replayed sequences -/

theorem runSeq_cons (s : CPUCacheState) (d : Dims) (ds : List Dims) :
    runSeq s (d :: ds) =
      ((CPUCache.get s d).1 :: (runSeq (CPUCache.get s d).2 ds).1,
       (runSeq (CPUCache.get s d).2 ds).2) := by
  rcases hg : CPUCache.get s d with ⟨m, s'⟩
  rcases hr : runSeq s' ds with ⟨ms, s''⟩
  simp [runSeq, hg, hr]

theorem runSeq_count (s : CPUCacheState) (ds : List Dims) :
    (runSeq s ds).2.count = s.count + ds.length := by
  induction ds generalizing s with
  | nil => simp [runSeq]
  | cons d ds ih =>
    rw [runSeq_cons]
    simp only [ih, get_count, List.length_cons]
    omega

theorem runSeq_preserve (s : CPUCacheState) (ds : List Dims) (n : Node)
    (hn : n.idx < s.count) :
    lookupNode (runSeq s ds).2.nodes n = lookupNode s.nodes n := by
  induction ds generalizing s with
  | nil => rfl
  | cons d ds ih =>
    rw [runSeq_cons]
    have h1 : n.idx < (CPUCache.get s d).2.count := by rw [get_count]; omega
    rw [ih _ h1, get_preserve s d n hn]

theorem runSeq_replay (s : CPUCacheState) (ds : List Dims) :
    runSeq (resetCount (runSeq s ds).2 s.count) ds = runSeq s ds := by
  induction ds generalizing s with
  | nil => rfl
  | cons d ds ih =>
    rcases hg : CPUCache.get s d with ⟨m, s1⟩
    have hs' : (runSeq s (d :: ds)).2 = (runSeq s1 ds).2 := by
      rw [runSeq_cons, hg]
    have hm : (runSeq s (d :: ds)).1 = m :: (runSeq s1 ds).1 := by
      rw [runSeq_cons, hg]
    have hcount : s1.count = s.count + 1 := by
      have := get_count s d; rw [hg] at this; exact this
    -- the first replayed call hits the entry left behind by the first pass
    have hlook : lookupNode (runSeq s1 ds).2.nodes ⟨s.count, d⟩ = some m := by
      rw [runSeq_preserve s1 ds ⟨s.count, d⟩ (show s.count < s1.count by omega)]
      have := get_post s d; rw [hg] at this; exact this
    have hhit :
        CPUCache.get (resetCount (runSeq s1 ds).2 s.count) d =
          (m, resetCount (runSeq s1 ds).2 (s.count + 1)) :=
      get_hit (resetCount (runSeq s1 ds).2 s.count) d m hlook
    have ihs := ih s1
    rw [hcount] at ihs
    have key : runSeq s (d :: ds) = (m :: (runSeq s1 ds).1, (runSeq s1 ds).2) := by
      rw [runSeq_cons, hg]
    rw [key, runSeq_cons, hhit, ihs]

/-! ## The well-formedness invariant -/

theorem WF_get (s : CPUCacheState) (d : Dims) (h : WF s) : WF (CPUCache.get s d).2 := by
  obtain ⟨hb, hi, hk⟩ := h
  cases hl : lookupNode s.nodes ⟨s.count, d⟩ with
  | some info =>
    rw [get_hit s d info hl]
    exact ⟨hb, hi, hk⟩
  | none =>
    rw [get_miss s d hl]
    have hins : insertNode s.nodes ⟨s.count, d⟩ (s.next, d) =
        (⟨⟨s.count, d⟩, (s.next, d)⟩ : Node × RawInfo) :: s.nodes := by
      rw [insertNode, eraseNode_of_lookup_none s.nodes _ hl]
    refine ⟨?_, ?_, ?_⟩
    · intro kv hkv
      simp only [hins, List.mem_cons] at hkv
      rcases hkv with hkv | hkv
      · subst hkv; simp
      · exact Nat.lt_succ_of_lt (hb kv hkv)
    · intro kv₁ h₁ kv₂ h₂ hp
      simp only [hins, List.mem_cons] at h₁ h₂
      rcases h₁ with h₁ | h₁ <;> rcases h₂ with h₂ | h₂
      · rw [h₁, h₂]
      · subst h₁
        exact absurd hp.symm (Nat.ne_of_lt (hb kv₂ h₂))
      · subst h₂
        exact absurd hp (Nat.ne_of_lt (hb kv₁ h₁))
      · exact hi kv₁ h₁ kv₂ h₂ hp
    · simp only [keysNodup, hins, List.map_cons, List.nodup_cons]
      exact ⟨(lookupNode_none_iff s.nodes _).mp hl, hk⟩

theorem WF_init : WF initState := by
  refine ⟨?_, ?_, ?_⟩ <;> simp [ptrsBelow, injPtrs, keysNodup, initState]

/-! ## The dealloc and drop folds -/

theorem dealloc_fold (l : List (Node × RawInfo)) (fs : List Nat)
    (m : List (Node × RawInfo)) :
    l.foldl (fun (acc : List Nat × List (Node × RawInfo)) entry =>
        (acc.1 ++ [entry.2.1], eraseNode acc.2 entry.1)) (fs, m)
      = (fs ++ l.map (fun kv => kv.2.1),
         l.foldl (fun c entry => eraseNode c entry.1) m) := by
  induction l generalizing fs m with
  | nil => simp
  | cons hd tl ih =>
    simp only [List.foldl_cons, List.map_cons]
    rw [ih]
    simp

theorem erase_fold_empty (l : List (Node × RawInfo)) :
    ∀ m : List (Node × RawInfo), (∀ kv ∈ m, kv.1 ∈ l.map Prod.fst) →
      l.foldl (fun c entry => eraseNode c entry.1) m = [] := by
  induction l with
  | nil =>
    intro m hm
    match m with
    | [] => rfl
    | kv :: rest => exact absurd (hm kv (List.mem_cons_self _ _)) (by simp)
  | cons hd tl ih =>
    intro m hm
    simp only [List.foldl_cons]
    refine ih _ ?_
    intro kv hkv
    rw [mem_eraseNode] at hkv
    have := hm kv hkv.1
    simp only [List.map_cons, List.mem_cons] at this
    rcases this with h | h
    · exact absurd h hkv.2
    · exact h

theorem deallocCache_eq (s : CPUCacheState) :
    deallocCache s =
      (s.nodes.map (fun kv => kv.2.1),
       { s with nodes := [] }) := by
  rw [deallocCache]
  simp only [dealloc_fold, List.nil_append]
  rw [erase_fold_empty s.nodes s.nodes
    (fun kv hkv => List.mem_map_of_mem Prod.fst hkv)]

theorem key_determines (l : List (Node × RawInfo)) (hk : (l.map Prod.fst).Nodup)
    (kv₁ : Node × RawInfo) (h₁ : kv₁ ∈ l) (kv₂ : Node × RawInfo) (h₂ : kv₂ ∈ l)
    (he : kv₁.1 = kv₂.1) : kv₁ = kv₂ := by
  induction l with
  | nil => simp at h₁
  | cons hd tl ih =>
    simp only [List.map_cons, List.nodup_cons] at hk
    rcases List.mem_cons.mp h₁ with h₁ | h₁ <;> rcases List.mem_cons.mp h₂ with h₂ | h₂
    · rw [h₁, h₂]
    · exfalso
      apply hk.1
      have hmem : kv₂.1 ∈ tl.map Prod.fst := List.mem_map_of_mem Prod.fst h₂
      rw [← he, h₁] at hmem
      exact hmem
    · exfalso
      apply hk.1
      rw [← h₂, ← he]
      exact List.mem_map_of_mem Prod.fst h₁
    · exact ih hk.2 h₁ h₂

theorem ptrs_nodup (l : List (Node × RawInfo))
    (hinj : ∀ kv₁ ∈ l, ∀ kv₂ ∈ l, kv₁.2.1 = kv₂.2.1 → kv₁.1 = kv₂.1)
    (hk : (l.map Prod.fst).Nodup) :
    (l.map (fun kv => kv.2.1)).Nodup := by
  refine List.Nodup.map_on ?_ (List.Nodup.of_map Prod.fst hk)
  intro kv₁ h₁ kv₂ h₂ hp
  exact key_determines l hk kv₁ h₁ kv₂ h₂ (hinj kv₁ h₁ kv₂ h₂ hp)

theorem filter_eraseNode (c : List (Node × RawInfo)) (k : Node) (p : Nat)
    (hagree : ∀ kv ∈ c, kv.1 = k → kv.2.1 = p) :
    (eraseNode c k).filter (fun kv => decide (kv.2.1 ≠ p))
      = c.filter (fun kv => decide (kv.2.1 ≠ p)) := by
  induction c with
  | nil => rfl
  | cons hd tl ih =>
    obtain ⟨a, v⟩ := hd
    rw [eraseNode]
    by_cases hak : a = k
    · rw [if_pos hak]
      have hvp : v.1 = p := hagree (a, v) (List.mem_cons_self _ _) hak
      rw [List.filter_cons_of_neg (by simp [hvp]),
        ih (fun kv hkv hke => hagree kv (List.mem_cons_of_mem _ hkv) hke)]
    · rw [if_neg hak]
      by_cases hvp : v.1 = p
      · rw [List.filter_cons_of_neg (by simp [hvp]),
          List.filter_cons_of_neg (by simp [hvp]),
          ih (fun kv hkv hke => hagree kv (List.mem_cons_of_mem _ hkv) hke)]
      · rw [List.filter_cons_of_pos (by simp [hvp]),
          List.filter_cons_of_pos (by simp [hvp]),
          ih (fun kv hkv hke => hagree kv (List.mem_cons_of_mem _ hkv) hke)]

theorem inner_fold_filter (p : Nat) (C : List (Node × RawInfo)) :
    ∀ c : List (Node × RawInfo),
      (∀ kv ∈ c, ∀ e ∈ C, kv.1 = e.1 → kv = e) →
      (∀ kv ∈ c, kv.2.1 = p → kv.1 ∈ C.map Prod.fst) →
      C.foldl (fun acc entry => if entry.2.1 = p then eraseNode acc entry.1 else acc) c
        = c.filter (fun kv => decide (kv.2.1 ≠ p)) := by
  induction C with
  | nil =>
    intro c _ hkeys
    simp only [List.foldl_nil]
    symm
    apply List.filter_eq_self.mpr
    intro kv hkv
    simp only [decide_eq_true_eq]
    intro hp
    exact absurd (hkeys kv hkv hp) (by simp)
  | cons e C ih =>
    intro c hagree hkeys
    simp only [List.foldl_cons]
    by_cases hep : e.2.1 = p
    · rw [if_pos hep]
      have hagree' : ∀ kv ∈ eraseNode c e.1, ∀ f ∈ C, kv.1 = f.1 → kv = f := by
        intro kv hkv f hf hkf
        exact hagree kv ((mem_eraseNode c e.1 kv).mp hkv).1 f (List.mem_cons_of_mem _ hf) hkf
      have hkeys' : ∀ kv ∈ eraseNode c e.1, kv.2.1 = p → kv.1 ∈ C.map Prod.fst := by
        intro kv hkv hp
        obtain ⟨hkc, hkne⟩ := (mem_eraseNode c e.1 kv).mp hkv
        have hm := hkeys kv hkc hp
        simp only [List.map_cons, List.mem_cons] at hm
        rcases hm with h | h
        · exact absurd h hkne
        · exact h
      rw [ih (eraseNode c e.1) hagree' hkeys']
      apply filter_eraseNode
      intro kv hkv hke
      rw [hagree kv hkv e (List.mem_cons_self _ _) hke]
      exact hep
    · rw [if_neg hep]
      apply ih c
      · intro kv hkv f hf hkf
        exact hagree kv hkv f (List.mem_cons_of_mem _ hf) hkf
      · intro kv hkv hp
        have hm := hkeys kv hkv hp
        simp only [List.map_cons, List.mem_cons] at hm
        rcases hm with h | h
        · exfalso
          have he := hagree kv hkv e (List.mem_cons_self _ _) h
          rw [he] at hp
          exact hep hp
        · exact h

theorem drop_fold (C : List (Node × RawInfo))
    (hC : ∀ kv ∈ C, ∀ e ∈ C, kv.1 = e.1 → kv = e) :
    ∀ (ps fs processed : List Nat),
      ps.foldl (fun (acc : List Nat × List (Node × RawInfo)) ptr =>
          (acc.1 ++ [ptr],
           C.foldl (fun c entry => if entry.2.1 = ptr then eraseNode c entry.1 else c) acc.2))
        (fs, C.filter (fun kv => decide (kv.2.1 ∉ processed)))
        = (fs ++ ps, C.filter (fun kv => decide (kv.2.1 ∉ processed ++ ps))) := by
  intro ps
  induction ps with
  | nil => intro fs processed; simp
  | cons p ps ih =>
    intro fs processed
    simp only [List.foldl_cons]
    have h1 : C.foldl (fun c entry => if entry.2.1 = p then eraseNode c entry.1 else c)
        (C.filter (fun kv => decide (kv.2.1 ∉ processed)))
        = (C.filter (fun kv => decide (kv.2.1 ∉ processed))).filter
            (fun kv => decide (kv.2.1 ≠ p)) := by
      apply inner_fold_filter
      · intro kv hkv f hf hkf
        exact hC kv (List.mem_of_mem_filter hkv) f hf hkf
      · intro kv hkv _
        exact List.mem_map_of_mem Prod.fst (List.mem_of_mem_filter hkv)
    rw [h1]
    have h2 : (C.filter (fun kv => decide (kv.2.1 ∉ processed))).filter
          (fun kv => decide (kv.2.1 ≠ p))
        = C.filter (fun kv => decide (kv.2.1 ∉ processed ++ [p])) := by
      rw [List.filter_filter]
      apply List.filter_congr
      intro kv _
      by_cases hmem : kv.2.1 ∈ processed <;> by_cases heq : kv.2.1 = p <;>
        simp [hmem, heq]
    rw [h2, ih (fs ++ [p]) (processed ++ [p])]
    simp only [List.append_assoc, List.singleton_append]

theorem dropCPU_eq (ptrs : List Nat) (cache : List (Node × RawInfo))
    (hk : (cache.map Prod.fst).Nodup) :
    dropCPU ptrs cache = (ptrs, cache.filter (fun kv => decide (kv.2.1 ∉ ptrs))) := by
  have hC : ∀ kv ∈ cache, ∀ e ∈ cache, kv.1 = e.1 → kv = e :=
    fun kv hkv e he hke => key_determines cache hk kv hkv e he hke
  have h0 : cache.filter (fun kv => decide (kv.2.1 ∉ ([] : List Nat))) = cache := by
    apply List.filter_eq_self.mpr
    intro kv hkv
    simp
  have key := drop_fold cache hC ptrs [] []
  rw [h0] at key
  simp only [List.nil_append] at key
  simpa [dropCPU] using key

/-! ## Claim theorems for the cache state machine -/

/-- Claim C1: for a fixed replayed sequence of cache lookups with fixed
requested dimensions and the thread-local call-site counter reset between
passes, the Kth call of the replay returns a matrix over exactly the same
backing pointer as the Kth call of the first pass (the results lists are
equal), and the replay performs no new allocation (the allocation count is
unchanged). -/
theorem cache_replay_aliasing (s : CPUCacheState) (ds : List Dims) :
    (runSeq (resetCount (runSeq s ds).2 s.count) ds).1 = (runSeq s ds).1
    ∧ (runSeq (resetCount (runSeq s ds).2 s.count) ds).2.allocs
        = (runSeq s ds).2.allocs := by
  rw [runSeq_replay]
  exact ⟨rfl, rfl⟩

/-- Claim C2: Node identity is the exact pair of call-site index and
dimensions: a lookup at the same index whose dimensions are not in the table
is a miss — it performs a fresh allocation at the allocator watermark and
does not reuse the pointer stored under the same index with the old
dimensions — the well-formedness invariant is preserved, and in every
well-formed state two distinct nodes are never mapped to the same backing
pointer. -/
theorem node_identity_exact (s : CPUCacheState) (d d' : Dims) (info : RawInfo)
    (hWF : WF s) (hdd : d ≠ d')
    (hstored : lookupNode s.nodes ⟨s.count, d⟩ = some info)
    (hmiss : lookupNode s.nodes ⟨s.count, d'⟩ = none) :
    (⟨s.count, d⟩ : Node) ≠ ⟨s.count, d'⟩
    ∧ (CPUCache.get s d').2.allocs = s.allocs + 1
    ∧ (CPUCache.get s d').1.1 = s.next
    ∧ (CPUCache.get s d').1.1 ≠ info.1
    ∧ WF (CPUCache.get s d').2
    ∧ (∀ kv₁ ∈ s.nodes, ∀ kv₂ ∈ s.nodes, kv₁.1 ≠ kv₂.1 → kv₁.2.1 ≠ kv₂.2.1) := by
  obtain ⟨hb, hi, hkn⟩ := hWF
  have hfresh : info.1 < s.next := hb _ (lookupNode_mem _ _ _ hstored)
  refine ⟨?_, ?_, ?_, ?_, WF_get s d' ⟨hb, hi, hkn⟩, ?_⟩
  · intro h
    exact hdd (congrArg Node.out_dims h)
  · rw [get_miss s d' hmiss]
  · rw [get_miss s d' hmiss]
  · rw [get_miss s d' hmiss]
    exact (Nat.ne_of_lt hfresh).symm
  · intro kv₁ h₁ kv₂ h₂ hne hp
    exact hne (hi kv₁ h₁ kv₂ h₂ hp)

/-- Claim C4: `dealloc_cache` releases the backing pointer of every record in
the table, each exactly once (the freed list enumerates the stored pointers
without duplicates), and leaves the table empty; a subsequent `get` at a
replayed call-site position is then a miss that performs a new allocation
whose address differs from every freed address. -/
theorem dealloc_cache_frees_all (s : CPUCacheState) (d : Dims) (c : Nat)
    (hWF : WF s) :
    (deallocCache s).1 = s.nodes.map (fun kv => kv.2.1)
    ∧ (deallocCache s).1.Nodup
    ∧ (deallocCache s).2.nodes = []
    ∧ (CPUCache.get (resetCount (deallocCache s).2 c) d).2.allocs = s.allocs + 1
    ∧ (CPUCache.get (resetCount (deallocCache s).2 c) d).1.1 = s.next
    ∧ (CPUCache.get (resetCount (deallocCache s).2 c) d).1.1 ∉ (deallocCache s).1 := by
  obtain ⟨hb, hi, hkn⟩ := hWF
  rw [deallocCache_eq]
  have hmiss :
      lookupNode (resetCount { s with nodes := ([] : List (Node × RawInfo)) } c).nodes
        ⟨(resetCount { s with nodes := ([] : List (Node × RawInfo)) } c).count, d⟩
        = none := rfl
  rw [get_miss _ _ hmiss]
  refine ⟨rfl, ptrs_nodup s.nodes hi hkn, rfl, rfl, rfl, ?_⟩
  intro hmem
  obtain ⟨kv, hkv, hkveq⟩ := List.mem_map.mp hmem
  exact absurd hkveq (Nat.ne_of_lt (hb kv hkv))

/-- Claim C10: when a CPU device value is dropped, every pointer recorded in
its `ptrs` list is freed (the freed list equals `ptrs`), and the surviving
cache table is exactly the original table restricted to entries whose stored
pointer is not among the freed ones — in particular no retained entry points
at memory the drop just freed. -/
theorem cpu_drop_frees_and_evicts (ptrs : List Nat)
    (cache : List (Node × RawInfo)) (hk : (cache.map Prod.fst).Nodup) :
    (dropCPU ptrs cache).1 = ptrs
    ∧ (dropCPU ptrs cache).2 = cache.filter (fun kv => decide (kv.2.1 ∉ ptrs))
    ∧ ∀ kv ∈ (dropCPU ptrs cache).2, kv.2.1 ∉ ptrs := by
  have h := dropCPU_eq ptrs cache hk
  refine ⟨by rw [h], by rw [h], ?_⟩
  intro kv hkv
  rw [h] at hkv
  simpa using List.of_mem_filter hkv

/-! ## Heap lemmas -/

theorem lookupBlock_set_self (l : List (Nat × Block)) (a : Nat) (v : Block)
    (h : (lookupBlock l a).isSome) : lookupBlock (setBlock l a v) a = some v := by
  induction l with
  | nil => simp [lookupBlock] at h
  | cons hd tl ih =>
    obtain ⟨x, b⟩ := hd
    rw [setBlock]
    by_cases hx : x = a
    · rw [if_pos hx, lookupBlock, if_pos rfl]
    · rw [if_neg hx, lookupBlock, if_neg hx]
      rw [lookupBlock, if_neg hx] at h
      exact ih h

theorem lookupBlock_set_ne (l : List (Nat × Block)) (a x : Nat) (v : Block)
    (h : x ≠ a) : lookupBlock (setBlock l a v) x = lookupBlock l x := by
  induction l with
  | nil => rfl
  | cons hd tl ih =>
    obtain ⟨y, b⟩ := hd
    rw [setBlock]
    by_cases hy : y = a
    · rw [if_pos hy, lookupBlock, lookupBlock, if_neg (fun hax : a = x => h hax.symm),
        if_neg (fun hyx : y = x => h (hy ▸ hyx).symm)]
    · rw [if_neg hy, lookupBlock, lookupBlock]
      by_cases hyx : y = x
      · rw [if_pos hyx, if_pos hyx]
      · rw [if_neg hyx, if_neg hyx, ih]

theorem setBlock_setBlock (l : List (Nat × Block)) (a : Nat) (v w : Block) :
    setBlock (setBlock l a v) a w = setBlock l a w := by
  induction l with
  | nil => rfl
  | cons hd tl ih =>
    obtain ⟨x, b⟩ := hd
    rw [setBlock]
    by_cases hx : x = a
    · rw [if_pos hx, setBlock, if_pos rfl, setBlock, if_pos hx]
    · rw [if_neg hx, setBlock, if_neg hx, setBlock, if_neg hx, ih]

/-! ## Claim theorems for the allocation surface -/

/-- Claim C5: on every embedded backend a zero-length allocation request and
an empty source slice are rejected immediately at the call boundary — the CPU
`alloc`/`with_slice`/`alloc_with_vec` assertions and the `InternCPU` variant
fail with the assertion message, and the CUDA `alloc`/`with_data` path fails
through the driver wrapper before any pointer is produced. -/
theorem zero_len_alloc_rejected :
    (∀ (h : Heap) (shapeLen : Nat), cpuAlloc h 0 shapeLen = .error "invalid buffer len: 0")
    ∧ (∀ h : Heap, withSlice h [] = .error "invalid buffer len: 0")
    ∧ (∀ (h : Heap) (a : Nat), allocWithVec h ⟨a, []⟩ = .error "invalid buffer len: 0")
    ∧ (∀ (h : Heap) (ps : List Nat), internCpuAlloc h ps 0 = .error "invalid buffer len: 0")
    ∧ (∀ nx : Nat, cudaAlloc nx 0 = .error "invalid allocation size: 0")
    ∧ (∀ nx : Nat, cudaWithData nx [] = .error "invalid allocation size: 0") :=
  ⟨fun h shapeLen => by simp [cpuAlloc],
   fun h => by simp [withSlice],
   fun h a => by simp [allocWithVec],
   fun h ps => by simp [internCpuAlloc],
   fun nx => by simp [cudaAlloc, cumalloc],
   fun nx => by simp [cudaWithData, cumalloc]⟩

/-- Claim C6: on the host backend, `alloc(n)` with `n > 0` (dynamic shape)
returns a fresh block of exactly `n` elements all of which are zero, and
`with_slice(data)` for non-empty `data` returns freshly allocated storage
whose read-back equals `data` element for element; the `InternCPU` variant
likewise returns a block of `n` default (zero) elements. -/
theorem host_alloc_zeroed_roundtrip (h : Heap) (n : Nat) (data : List Int)
    (hn : 0 < n) (hd : data ≠ []) :
    (cpuAlloc h n 0 = .ok (h.next, ⟨h.next + 1, (h.next, List.replicate n 0) :: h.blocks⟩)
      ∧ (List.replicate n (0 : Int)).length = n
      ∧ (∀ x ∈ List.replicate n (0 : Int), x = 0)
      ∧ readBuf ⟨h.next + 1, (h.next, List.replicate n 0) :: h.blocks⟩ ⟨h.next, n⟩
          = some (List.replicate n 0))
    ∧ (withSlice h data = .ok (h.next, ⟨h.next + 1, (h.next, data) :: h.blocks⟩)
      ∧ readBuf ⟨h.next + 1, (h.next, data) :: h.blocks⟩ ⟨h.next, data.length⟩
          = some data)
    ∧ (internCpuAlloc h [] n
        = .ok (h.next, ⟨h.next + 1, (h.next, List.replicate n 0) :: h.blocks⟩, [h.next])) := by
  have hne : n ≠ 0 := Nat.pos_iff_ne_zero.mp hn
  have hdl : data.length ≠ 0 := fun hc => hd (List.eq_nil_of_length_eq_zero hc)
  have halloc : cpuAlloc h n 0
      = .ok (h.next, ⟨h.next + 1, (h.next, List.replicate n 0) :: h.blocks⟩) := by
    simp [cpuAlloc, hne]
  have hempty : data.isEmpty = false := by
    cases data with
    | nil => exact absurd rfl hd
    | cons a l => rfl
  have hallocd : cpuAlloc h data.length 0
      = .ok (h.next, ⟨h.next + 1, (h.next, List.replicate data.length 0) :: h.blocks⟩) := by
    simp [cpuAlloc, hdl]
  refine ⟨⟨halloc, List.length_replicate n 0, by simp, ?_⟩, ⟨?_, ?_⟩, ?_⟩
  · simp [readBuf, bufAsSlice, lookupBlock]
  · rw [withSlice, hempty]
    simp only [Bool.false_eq_true, if_false, hallocd]
    simp [writeBufMem, lookupBlock, setBlock, List.drop_replicate, Nat.sub_self]
  · simp [readBuf, bufAsSlice, lookupBlock]
  · simp [internCpuAlloc, hne]

/-- Claim C7: `alloc_with_vec` adopts a non-empty owned vector without
copying: the returned pointer is the vector's own backing address, the heap is
completely unchanged (no new allocation, no element copy), and the vector
handle is consumed (`core::mem::forget`), so its destructor performs no free
and the returned pointer remains the sole owner of the allocation. -/
theorem alloc_with_vec_adopts (h : Heap) (v : HVec) (hv : v.data ≠ []) :
    allocWithVec h v = .ok (v.addr, h, true) ∧ vecDropFrees true = 0 := by
  constructor
  · simp [allocWithVec, hv]
  · rfl

/-- Claim C9: `clear` overwrites every element of the buffer with the element
type's default value, so a read after `clear` yields the default repeated
`len` times, and `clear` is idempotent: clearing twice produces exactly the
state produced by clearing once. -/
theorem clear_defaults_idempotent (h : Heap) (b : Buf) (bs : Block)
    (hb : lookupBlock h.blocks b.addr = some bs) (hlen : b.len ≤ bs.length) :
    readBuf (cpuClear h b) b = some (List.replicate b.len 0)
    ∧ cpuClear (cpuClear h b) b = cpuClear h b := by
  have hc1 : cpuClear h b
      = ⟨h.next, setBlock h.blocks b.addr (List.replicate b.len 0 ++ bs.drop b.len)⟩ := by
    simp [cpuClear, writeBufMem, hb]
  have hlk1 : lookupBlock
        (setBlock h.blocks b.addr (List.replicate b.len 0 ++ bs.drop b.len)) b.addr
      = some (List.replicate b.len 0 ++ bs.drop b.len) :=
    lookupBlock_set_self h.blocks b.addr _ (by rw [hb]; rfl)
  constructor
  · rw [hc1, readBuf, bufAsSlice]
    simp only [hlk1, Option.map_some]
    simp [List.take_append_eq_append_take, List.take_replicate, Nat.sub_self, Nat.min_self]
  · rw [hc1]
    simp only [cpuClear, writeBufMem, hlk1]
    simp [List.drop_append_eq_append_drop, List.drop_replicate, Nat.sub_self,
      setBlock_setBlock]

/-- Claim C8: `clone_buf` returns an independent new buffer: the clone's
backing address is fresh (distinct from the source's), its contents read back
equal to the source's, and the source is untouched; concretely, building a
length-4 host buffer from `[1,2,3,4]`, cloning it and clearing the clone
reads back `[1,2,3,4]` from the original and `[0,0,0,0]` from the clone. -/
theorem clone_buf_independent (h : Heap) (b : Buf) (bs : Block)
    (hb : lookupBlock h.blocks b.addr = some bs)
    (hlen : b.len ≤ bs.length) (hpos : 0 < b.len) (haddr : b.addr < h.next) :
    (cloneBuf h b
        = .ok (⟨h.next, b.len⟩, ⟨h.next + 1, (h.next, bs.take b.len) :: h.blocks⟩)
      ∧ h.next ≠ b.addr
      ∧ readBuf ⟨h.next + 1, (h.next, bs.take b.len) :: h.blocks⟩ ⟨h.next, b.len⟩
          = readBuf h b
      ∧ readBuf ⟨h.next + 1, (h.next, bs.take b.len) :: h.blocks⟩ b = readBuf h b)
    ∧ cloneScene = some ([1, 2, 3, 4], [0, 0, 0, 0]) := by
  have hne : b.len ≠ 0 := Nat.pos_iff_ne_zero.mp hpos
  have hnab : h.next ≠ b.addr := (Nat.ne_of_lt haddr).symm
  have halloc : cpuAlloc h b.len 0
      = .ok (h.next, ⟨h.next + 1, (h.next, List.replicate b.len 0) :: h.blocks⟩) := by
    simp [cpuAlloc, hne]
  have hsrc : bufAsSlice ⟨h.next + 1, (h.next, List.replicate b.len 0) :: h.blocks⟩ b
      = some (bs.take b.len) := by
    simp [bufAsSlice, lookupBlock, hnab, hb]
  have hsl : (bs.take b.len).length = b.len := by
    simp [List.length_take, Nat.min_eq_left hlen]
  refine ⟨⟨?_, hnab, ?_, ?_⟩, by decide⟩
  · simp only [cloneBuf, halloc, hsrc]
    rw [if_pos hsl]
    simp [writeBufMem, lookupBlock, setBlock, hsl, List.drop_replicate, Nat.sub_self]
  · simp [readBuf, bufAsSlice, lookupBlock, hb, List.take_take, Nat.min_self]
  · simp [readBuf, bufAsSlice, lookupBlock, hnab, hb]

/-! ## Claim theorems for the type-erasure bridge -/

/-- Counterexample to claim C3: a record constructed for a 4-byte, 4-aligned
element type, destructed at a requested layout of size 8 and alignment 8,
returns the reinterpreted typed pointer `(100, 7)` — no failure occurs even
though the requested size disagrees with the recorded one — whereas the
behaviour the claim describes (`destructChecked`) refuses the request. -/
theorem destruct_layout_cex :
    destruct 8 8 (construct 4 4 100 10 7) = (100, 7)
    ∧ (construct 4 4 100 10 7).size = 4
    ∧ (construct 4 4 100 10 7).align = 4
    ∧ (8 : Nat) ≠ 4
    ∧ destructChecked 8 8 (construct 4 4 100 10 7) = none := by
  refine ⟨rfl, rfl, rfl, by decide, by decide⟩

/-- Claim C3 (amended): `construct` does record the element type's size and
alignment in the erased record, but `destruct` performs no size/alignment
check whatsoever — it returns the reinterpreted pointer and node
unconditionally, for every requested layout, including layouts disagreeing
with what `construct` recorded. -/
theorem destruct_unchecked (tsize talign tsize' talign' ptr len node : Nat) :
    (construct tsize talign ptr len node).size = tsize
    ∧ (construct tsize talign ptr len node).align = talign
    ∧ destruct tsize' talign' (construct tsize talign ptr len node) = (ptr, node)
    ∧ (∀ ct : RawCpuBuf, destruct tsize' talign' ct = (ct.ptr, ct.node)) :=
  ⟨rfl, rfl, rfl, fun ct => rfl⟩

/-! ## Witnesses -/

/-- Witness for `node_identity_exact` at a concrete one-entry cache state. -/
theorem node_identity_exact_witness :
    WF (⟨0, [(⟨0, (2, 2)⟩, (0, (2, 2)))], 1, 1⟩ : CPUCacheState)
    ∧ ((2, 2) : Dims) ≠ ((2, 3) : Dims)
    ∧ lookupNode [(⟨0, (2, 2)⟩, (0, (2, 2)))] ⟨0, (2, 2)⟩ = some (0, (2, 2))
    ∧ lookupNode [(⟨0, (2, 2)⟩, (0, (2, 2)))] ⟨0, (2, 3)⟩ = none
    ∧ ((⟨0, (2, 2)⟩ : Node) ≠ ⟨0, (2, 3)⟩
      ∧ (CPUCache.get ⟨0, [(⟨0, (2, 2)⟩, (0, (2, 2)))], 1, 1⟩ (2, 3)).2.allocs = 2
      ∧ (CPUCache.get ⟨0, [(⟨0, (2, 2)⟩, (0, (2, 2)))], 1, 1⟩ (2, 3)).1.1 = 1
      ∧ (CPUCache.get ⟨0, [(⟨0, (2, 2)⟩, (0, (2, 2)))], 1, 1⟩ (2, 3)).1.1 ≠ 0
      ∧ WF (CPUCache.get ⟨0, [(⟨0, (2, 2)⟩, (0, (2, 2)))], 1, 1⟩ (2, 3)).2
      ∧ (∀ kv₁ ∈ ([(⟨0, (2, 2)⟩, (0, (2, 2)))] : List (Node × RawInfo)),
          ∀ kv₂ ∈ ([(⟨0, (2, 2)⟩, (0, (2, 2)))] : List (Node × RawInfo)),
          kv₁.1 ≠ kv₂.1 → kv₁.2.1 ≠ kv₂.2.1)) :=
  ⟨by decide, by decide, by decide, by decide,
   node_identity_exact ⟨0, [(⟨0, (2, 2)⟩, (0, (2, 2)))], 1, 1⟩ (2, 2) (2, 3) (0, (2, 2))
     (by decide) (by decide) (by decide) (by decide)⟩

/-- Witness for `dealloc_cache_frees_all` at a concrete two-entry cache. -/
theorem dealloc_cache_frees_all_witness :
    WF (⟨2, [(⟨1, (1, 3)⟩, (1, (1, 3))), (⟨0, (1, 4)⟩, (0, (1, 4)))], 2, 2⟩ : CPUCacheState)
    ∧ ((deallocCache ⟨2, [(⟨1, (1, 3)⟩, (1, (1, 3))), (⟨0, (1, 4)⟩, (0, (1, 4)))], 2, 2⟩).1
          = [1, 0]
      ∧ (deallocCache ⟨2, [(⟨1, (1, 3)⟩, (1, (1, 3))), (⟨0, (1, 4)⟩, (0, (1, 4)))], 2, 2⟩).1.Nodup
      ∧ (deallocCache ⟨2, [(⟨1, (1, 3)⟩, (1, (1, 3))), (⟨0, (1, 4)⟩, (0, (1, 4)))], 2, 2⟩).2.nodes
          = []
      ∧ (CPUCache.get (resetCount
            (deallocCache ⟨2, [(⟨1, (1, 3)⟩, (1, (1, 3))), (⟨0, (1, 4)⟩, (0, (1, 4)))], 2, 2⟩).2 0)
            (1, 4)).2.allocs = 3
      ∧ (CPUCache.get (resetCount
            (deallocCache ⟨2, [(⟨1, (1, 3)⟩, (1, (1, 3))), (⟨0, (1, 4)⟩, (0, (1, 4)))], 2, 2⟩).2 0)
            (1, 4)).1.1 = 2
      ∧ (CPUCache.get (resetCount
            (deallocCache ⟨2, [(⟨1, (1, 3)⟩, (1, (1, 3))), (⟨0, (1, 4)⟩, (0, (1, 4)))], 2, 2⟩).2 0)
            (1, 4)).1.1
          ∉ (deallocCache ⟨2, [(⟨1, (1, 3)⟩, (1, (1, 3))), (⟨0, (1, 4)⟩, (0, (1, 4)))], 2, 2⟩).1) :=
  ⟨by decide,
   dealloc_cache_frees_all ⟨2, [(⟨1, (1, 3)⟩, (1, (1, 3))), (⟨0, (1, 4)⟩, (0, (1, 4)))], 2, 2⟩
     (1, 4) 0 (by decide)⟩

/-- Witness for `cpu_drop_frees_and_evicts` at a concrete three-entry cache
with two recorded device pointers. -/
theorem cpu_drop_frees_and_evicts_witness :
    (([(⟨0, (1, 2)⟩, (0, (1, 2))), (⟨1, (1, 3)⟩, (3, (1, 3))), (⟨2, (2, 2)⟩, (5, (2, 2)))]
        : List (Node × RawInfo)).map Prod.fst).Nodup
    ∧ ((dropCPU [5, 0]
          [(⟨0, (1, 2)⟩, (0, (1, 2))), (⟨1, (1, 3)⟩, (3, (1, 3))), (⟨2, (2, 2)⟩, (5, (2, 2)))]).1
        = [5, 0]
      ∧ (dropCPU [5, 0]
          [(⟨0, (1, 2)⟩, (0, (1, 2))), (⟨1, (1, 3)⟩, (3, (1, 3))), (⟨2, (2, 2)⟩, (5, (2, 2)))]).2
        = [(⟨1, (1, 3)⟩, (3, (1, 3)))]
      ∧ ∀ kv ∈ (dropCPU [5, 0]
          [(⟨0, (1, 2)⟩, (0, (1, 2))), (⟨1, (1, 3)⟩, (3, (1, 3))), (⟨2, (2, 2)⟩, (5, (2, 2)))]).2,
          kv.2.1 ∉ ([5, 0] : List Nat)) :=
  ⟨by decide,
   cpu_drop_frees_and_evicts [5, 0]
     [(⟨0, (1, 2)⟩, (0, (1, 2))), (⟨1, (1, 3)⟩, (3, (1, 3))), (⟨2, (2, 2)⟩, (5, (2, 2)))]
     (by decide)⟩

/-- Witness for `host_alloc_zeroed_roundtrip` on an empty heap with `n = 3`
and `data = [1, 2, 3]`. -/
theorem host_alloc_zeroed_roundtrip_witness :
    0 < 3
    ∧ ([1, 2, 3] : List Int) ≠ []
    ∧ ((cpuAlloc ⟨0, []⟩ 3 0 = .ok (0, ⟨1, [(0, [0, 0, 0])]⟩)
      ∧ (List.replicate 3 (0 : Int)).length = 3
      ∧ (∀ x ∈ List.replicate 3 (0 : Int), x = 0)
      ∧ readBuf ⟨1, [(0, [0, 0, 0])]⟩ ⟨0, 3⟩ = some [0, 0, 0])
    ∧ (withSlice ⟨0, []⟩ [1, 2, 3] = .ok (0, ⟨1, [(0, [1, 2, 3])]⟩)
      ∧ readBuf ⟨1, [(0, [1, 2, 3])]⟩ ⟨0, 3⟩ = some [1, 2, 3])
    ∧ internCpuAlloc ⟨0, []⟩ [] 3 = .ok (0, ⟨1, [(0, [0, 0, 0])]⟩, [0])) :=
  ⟨by decide, by decide,
   host_alloc_zeroed_roundtrip ⟨0, []⟩ 3 [1, 2, 3] (by decide) (by decide)⟩

/-- Witness for `alloc_with_vec_adopts` on a vector backed at address 3. -/
theorem alloc_with_vec_adopts_witness :
    (⟨3, [1, 2]⟩ : HVec).data ≠ []
    ∧ (allocWithVec ⟨5, [(3, [1, 2])]⟩ ⟨3, [1, 2]⟩ = .ok (3, ⟨5, [(3, [1, 2])]⟩, true)
      ∧ vecDropFrees true = 0) :=
  ⟨by decide, alloc_with_vec_adopts ⟨5, [(3, [1, 2])]⟩ ⟨3, [1, 2]⟩ (by decide)⟩

/-- Witness for `clear_defaults_idempotent` on a length-2 buffer holding
`[5, 6]`. -/
theorem clear_defaults_idempotent_witness :
    lookupBlock [(0, [5, 6])] 0 = some [5, 6]
    ∧ (2 : Nat) ≤ 2
    ∧ (readBuf (cpuClear ⟨1, [(0, [5, 6])]⟩ ⟨0, 2⟩) ⟨0, 2⟩ = some [0, 0]
      ∧ cpuClear (cpuClear ⟨1, [(0, [5, 6])]⟩ ⟨0, 2⟩) ⟨0, 2⟩
          = cpuClear ⟨1, [(0, [5, 6])]⟩ ⟨0, 2⟩) :=
  ⟨by decide, by decide,
   clear_defaults_idempotent ⟨1, [(0, [5, 6])]⟩ ⟨0, 2⟩ [5, 6] (by decide) (by decide)⟩

/-- Witness for `clone_buf_independent` on a length-2 buffer holding
`[5, 6]`. -/
theorem clone_buf_independent_witness :
    lookupBlock [(0, [5, 6])] 0 = some [5, 6]
    ∧ (2 : Nat) ≤ 2
    ∧ (0 : Nat) < 2
    ∧ (0 : Nat) < 1
    ∧ ((cloneBuf ⟨1, [(0, [5, 6])]⟩ ⟨0, 2⟩
          = .ok (⟨1, 2⟩, ⟨2, [(1, [5, 6]), (0, [5, 6])]⟩)
      ∧ (1 : Nat) ≠ 0
      ∧ readBuf ⟨2, [(1, [5, 6]), (0, [5, 6])]⟩ ⟨1, 2⟩ = readBuf ⟨1, [(0, [5, 6])]⟩ ⟨0, 2⟩
      ∧ readBuf ⟨2, [(1, [5, 6]), (0, [5, 6])]⟩ ⟨0, 2⟩ = readBuf ⟨1, [(0, [5, 6])]⟩ ⟨0, 2⟩)
    ∧ cloneScene = some ([1, 2, 3, 4], [0, 0, 0, 0])) :=
  ⟨by decide, by decide, by decide, by decide,
   clone_buf_independent ⟨1, [(0, [5, 6])]⟩ ⟨0, 2⟩ [5, 6]
     (by decide) (by decide) (by decide) (by decide)⟩

end Custos
